import Mathlib

set_option maxHeartbeats 1000000
set_option maxRecDepth 8000

namespace ChadBot

/-! Shallow embedding of the chat-parsing helpers of
src/client/src/pages/ChadBot.js: `cleanText`, `fixMojibake` and `parseChat`.

JS strings are modelled as `String` / `List Char` (sequences of Unicode
scalar values).  Each regular expression used by `parseChat` is embedded as
a deterministic matcher realising the behaviour of the backtracking JS
engine on that particular pattern (for these patterns every quantifier is
followed by a character that the quantified class cannot match, so the
greedy match is forced; the two places where real backtracking can occur,
`\s*([^:]+):` and `:\s+(.+)`, are implemented with their exact
backtracking outcome). -/

def isDigitC (c : Char) : Bool := '0' ≤ c && c ≤ '9'

/-- Predicate for the ECMAScript `\s` class (WhiteSpace and LineTerminator),
which is also exactly the set of characters removed by
`String.prototype.trim`. -/
def isJsWs (c : Char) : Bool :=
  c = '\t' || c = '\n' || c.toNat = 11 || c.toNat = 12 || c = '\r' || c = ' ' ||
  c.toNat = 0xA0 || c.toNat = 0x1680 || (0x2000 ≤ c.toNat && c.toNat ≤ 0x200A) ||
  c.toNat = 0x2028 || c.toNat = 0x2029 || c.toNat = 0x202F || c.toNat = 0x205F ||
  c.toNat = 0x3000 || c.toNat = 0xFEFF

/-- Predicate for the ECMAScript LineTerminator set: the characters NOT
matched by `.` in a regex without the `s` flag. -/
def isLineTerm (c : Char) : Bool :=
  c = '\n' || c = '\r' || c.toNat = 0x2028 || c.toNat = 0x2029

/-- Embedding of `String.prototype.trim`. -/
def jsTrim (l : List Char) : List Char :=
  ((l.dropWhile isJsWs).reverse.dropWhile isJsWs).reverse

/-- Embedding of `cleanText`: replace U+202F and U+00A0 by a plain space. -/
def cleanText (l : List Char) : List Char :=
  l.map (fun c => if c.toNat = 0x202F || c.toNat = 0xA0 then ' ' else c)

/-- Embedding of `rawText.split('\n')`. -/
def splitOnNl : List Char → List (List Char)
  | [] => [[]]
  | c :: rest =>
    if c = '\n' then [] :: splitOnNl rest
    else
      match splitOnNl rest with
      | s :: ss => (c :: s) :: ss
      | [] => [[c]]

/-- The tuple produced by a pattern's `parse` callback from its regex match
(fields correspond to `{date, time, sender, content}`). -/
structure Extracted where
  date : List Char
  time : List Char
  sender : List Char
  content : List Char
deriving DecidableEq, Repr

/-- Matcher piece for `\d{k}` (an exact repetition).  If more digits follow,
the literal/class required next by each source pattern fails on a digit, so
taking exactly `k` is what the JS engine does. -/
def takeDigits (k : Nat) (l : List Char) : Option (List Char × List Char) :=
  let t := l.take k
  if t.length = k && t.all isDigitC then some (t, l.drop k) else none

/-- Matcher piece for `\d{a,b}` in a position where the next regex atom can
never match a digit (true at every use site in the source patterns): the
greedy engine succeeds exactly when the whole digit run has length in
`[a, b]`. -/
def digitsBetween (a b : Nat) (l : List Char) : Option (List Char × List Char) :=
  let t := l.takeWhile isDigitC
  if a ≤ t.length && t.length ≤ b then some (t, l.dropWhile isDigitC) else none

def expectChar (c : Char) : List Char → Option (List Char)
  | x :: xs => if x = c then some xs else none
  | [] => none

/-- Matcher piece for the date separator class `[/.-]`. -/
def expectSep : List Char → Option (Char × List Char)
  | c :: r => if c = '/' || c = '.' || c = '-' then some (c, r) else none
  | [] => none

def isAorP (c : Char) : Bool := c = 'a' || c = 'A' || c = 'p' || c = 'P'

def isM (c : Char) : Bool := c = 'm' || c = 'M'

/-- Matcher piece for `[ap]\.?m\.?` under the `i` flag (`[APap]\.?[Mm]\.?`
is the same set).  A `.` taken by the first `\.?` must be followed by an
`m`; otherwise the engine backtracks to the dotless branch, which then also
fails, so the shape is: a/p, then either `.m` or `m`, then an optional
trailing dot.  Returns the matched text and the rest. -/
def ampmCore : List Char → Option (List Char × List Char)
  | c :: rest =>
    if isAorP c then
      match rest with
      | '.' :: m :: r2 =>
        if isM m then
          match r2 with
          | '.' :: r3 => some ([c, '.', m, '.'], r3)
          | _ => some ([c, '.', m], r2)
        else none
      | m :: r2 =>
        if isM m then
          match r2 with
          | '.' :: r3 => some ([c, m, '.'], r3)
          | _ => some ([c, m], r2)
        else none
      | [] => none
    else none
  | [] => none

/-- Predicate for the class `[^:]`. -/
def notColon (c : Char) : Bool := c ≠ ':'

/-- Predicate for `.` (any character but a line terminator). -/
def notLineTerm (c : Char) : Bool := !(isLineTerm c)

/-- Matcher piece for `\s*([^:]+):`.  The `\s*` is greedy, but if the first
non-whitespace character is already the colon the engine backtracks one
whitespace character so that `[^:]+` can match it; the capture is then that
single whitespace character. -/
def senderSplit (l : List Char) : Option (List Char × List Char) :=
  let w := l.takeWhile isJsWs
  let r := l.dropWhile isJsWs
  let s := r.takeWhile notColon
  match r.dropWhile notColon with
  | ':' :: rest =>
    if s.isEmpty then
      match w.getLast? with
      | some c => some ([c], rest)
      | none => none
    else some (s, rest)
  | _ => none

/-- Matcher piece for a trailing `\s*(.*)`: skip the maximal whitespace run,
then `.` greedily matches up to the first line terminator or the end. -/
def tailContent (l : List Char) : List Char :=
  (l.dropWhile isJsWs).takeWhile notLineTerm

/-- Matcher piece for the generic pattern's `:\s+(.+)` suffix (argument is
the text after the colon).  Normally the capture starts at the first
non-whitespace character; if the whole remainder is whitespace the engine
backtracks `\s+` and `.` matches the last non-line-terminator whitespace
character (everything after it is a terminator, so the capture is that
single character). -/
def genContent (rest : List Char) : Option (List Char) :=
  if (rest.takeWhile isJsWs).isEmpty then none
  else if (rest.dropWhile isJsWs).isEmpty then
    match ((rest.takeWhile isJsWs).drop 1).reverse.find? notLineTerm with
    | some ch => some [ch]
    | none => none
  else some ((rest.dropWhile isJsWs).takeWhile notLineTerm)

/-- Embedding of pattern 1, `android_iso`:
`^(\d{4}-\d{2}-\d{2}),\s*(\d{1,2}:\d{2})\s*([ap]\.?m\.?)\s*-\s*([^:]+):\s*(.*)`
with `parse: (m) => ({date: m[1], time: m[2] + " " + m[3], sender: m[4],
content: m[5]})`. -/
def matchAndroidIso (l : List Char) : Option Extracted := do
  let (d1, l1) ← takeDigits 4 l
  let l2 ← expectChar '-' l1
  let (d2, l3) ← takeDigits 2 l2
  let l4 ← expectChar '-' l3
  let (d3, l5) ← takeDigits 2 l4
  let l6 ← expectChar ',' l5
  let l7 := l6.dropWhile isJsWs
  let (h, l8) ← digitsBetween 1 2 l7
  let l9 ← expectChar ':' l8
  let (mi, l10) ← takeDigits 2 l9
  let l11 := l10.dropWhile isJsWs
  let (ap, l12) ← ampmCore l11
  let l13 := l12.dropWhile isJsWs
  let l14 ← expectChar '-' l13
  let (snd, l15) ← senderSplit l14
  some ⟨d1 ++ ['-'] ++ d2 ++ ['-'] ++ d3, h ++ [':'] ++ mi ++ [' '] ++ ap,
        snd, tailContent l15⟩

/-- Embedding of pattern 2, `ios_brackets`:
`^\[(\d{1,2}[/.-]\d{1,2}[/.-]\d{2,4})[,\sT]+(\d{1,2}:\d{2}(?::\d{2})?(?:\s*[APap]\.?[Mm]\.?)?)\]\s*([^:]+):\s*(.*)`
with `parse: (m) => ({date: m[1], time: m[2], sender: m[3], content: m[4]})`.
Under the `i` flag the class `[,\sT]` also matches a lowercase `t`.  The
optional seconds group consumes `:DD` only when both digits are present;
the optional meridiem group consumes its leading whitespace only when the
meridiem itself matches (otherwise the group matches empty and the position
is reset). -/
def matchIos (l : List Char) : Option Extracted := do
  let l0 ← expectChar '[' l
  let (d1, l1) ← digitsBetween 1 2 l0
  let (s1, l2) ← expectSep l1
  let (d2, l3) ← digitsBetween 1 2 l2
  let (s2, l4) ← expectSep l3
  let (yr, l5) ← digitsBetween 2 4 l4
  let sepRun := l5.takeWhile (fun c => c = ',' || isJsWs c || c = 'T' || c = 't')
  let l6 := l5.dropWhile (fun c => c = ',' || isJsWs c || c = 'T' || c = 't')
  if sepRun.isEmpty then none
  else do
    let (h, l7) ← digitsBetween 1 2 l6
    let l8 ← expectChar ':' l7
    let (mi, l9) ← takeDigits 2 l8
    let (secTxt, l10) :=
      match l9 with
      | ':' :: a :: b :: r => if isDigitC a && isDigitC b then ([':', a, b], r) else ([], l9)
      | _ => ([], l9)
    let (apTxt, l11) :=
      match ampmCore (l10.dropWhile isJsWs) with
      | some (t, r2) => (l10.takeWhile isJsWs ++ t, r2)
      | none => ([], l10)
    let l12 ← expectChar ']' l11
    let (snd, l13) ← senderSplit l12
    some ⟨d1 ++ [s1] ++ d2 ++ [s2] ++ yr, h ++ [':'] ++ mi ++ secTxt ++ apTxt,
          snd, tailContent l13⟩

/-- Embedding of pattern 3, `android_short`:
`^(\d{1,2}[/.-]\d{1,2}[/.-]\d{2,4}),\s*(\d{1,2}:\d{2}\s*[APap]\.?[Mm]\.?)\s*-\s*([^:]+):\s*(.*)`
with `parse: (m) => ({date: m[1], time: m[2], sender: m[3], content: m[4]})`.
The whitespace before the meridiem lies inside capture group 2. -/
def matchAndroidShort (l : List Char) : Option Extracted := do
  let (d1, l1) ← digitsBetween 1 2 l
  let (s1, l2) ← expectSep l1
  let (d2, l3) ← digitsBetween 1 2 l2
  let (s2, l4) ← expectSep l3
  let (yr, l5) ← digitsBetween 2 4 l4
  let l6 ← expectChar ',' l5
  let l7 := l6.dropWhile isJsWs
  let (h, l8) ← digitsBetween 1 2 l7
  let l9 ← expectChar ':' l8
  let (mi, l10) ← takeDigits 2 l9
  let w := l10.takeWhile isJsWs
  let (ap, l11) ← ampmCore (l10.dropWhile isJsWs)
  let l12 := l11.dropWhile isJsWs
  let l13 ← expectChar '-' l12
  let (snd, l14) ← senderSplit l13
  some ⟨d1 ++ [s1] ++ d2 ++ [s2] ++ yr, h ++ [':'] ++ mi ++ w ++ ap,
        snd, tailContent l14⟩

/-- Embedding of pattern 4, `generic`: `^([^\s:][^:]{0,30}):\s+(.+)` with
`parse: (m) => ({date: [], time: [], sender: m[1], content: m[2]})`.  The
sender group cannot contain a colon, so it can only end at the line's first
colon; the match therefore succeeds exactly when that colon exists at index
1 to 31. -/
def matchGeneric (l : List Char) : Option Extracted :=
  match l with
  | [] => none
  | c :: _ =>
    if isJsWs c || c = ':' then none
    else
      match l.dropWhile notColon with
      | ':' :: rest =>
        if (l.takeWhile notColon).length ≤ 31 then
          match genContent rest with
          | some content => some ⟨[], [], l.takeWhile notColon, content⟩
          | none => none
        else none
      | _ => none

/-- The `for (const p of patterns)` loop: first matching pattern wins, in
the fixed source order. -/
def tryPatterns (l : List Char) : Option Extracted :=
  match matchAndroidIso l with
  | some e => some e
  | none =>
    match matchIos l with
    | some e => some e
    | none =>
      match matchAndroidShort l with
      | some e => some e
      | none => matchGeneric l

/-- A parsed chat message.  The random `id` field of the source is not
modelled (it carries no information used by any claim and is freshly
random on every parse). -/
structure Message where
  date : String
  time : String
  sender : String
  content : String
deriving DecidableEq, Repr

structure ParseResult where
  messages : List Message
  participants : List String
deriving DecidableEq, Repr

/-- Embedding of `Set.prototype.add` on an insertion-ordered set. -/
def addParticipant (ps : List String) (s : String) : List String :=
  if s ∈ ps then ps else ps ++ [s]

/-- The message record built from an extraction:
`{date: extracted.date || 'Unknown', time: extracted.time || '',
sender: extracted.sender.trim(), content: extracted.content.trim()}`. -/
def mkMessage (e : Extracted) : Message :=
  { date := if e.date.isEmpty then "Unknown" else String.mk e.date
    time := String.mk e.time
    sender := String.mk (jsTrim e.sender)
    content := String.mk (jsTrim e.content) }

/-- State of the `lines.forEach` loop. -/
structure LineState where
  messages : List Message
  participants : List String
  current : Option Message
deriving DecidableEq, Repr

/-- Body of the `lines.forEach` callback (`cleaned` written out at each
use). -/
def processLine (st : LineState) (line : List Char) : LineState :=
  if (cleanText (jsTrim line)).isEmpty then st
  else
    match tryPatterns (cleanText (jsTrim line)) with
    | some e =>
      { messages := st.messages ++ st.current.toList
        participants := addParticipant st.participants (String.mk (jsTrim e.sender))
        current := some (mkMessage e) }
    | none =>
      match st.current with
      | some m =>
        { st with current := some { m with
            content := m.content ++ "\n" ++ String.mk (cleanText (jsTrim line)) } }
      | none => st

/-- The line-based part of `parseChat` (everything after the structured-data
attempt). -/
def parseLines (raw : List Char) : ParseResult :=
  let st := (splitOnNl raw).foldl processLine ⟨[], [], none⟩
  { messages := st.messages ++ st.current.toList, participants := st.participants }

/-! The structured-data fast path: `JSON.parse` is embedded by a JSON value
type and a parser for the exact JSON grammar (ECMA-404, the grammar
accepted by `JSON.parse`).  Numbers are kept as their source lexeme; the
claims never touch numeric values, and all that the chat code ever does
with a number is test its truthiness (zero or not), which is decidable on
the lexeme. -/

inductive Json where
  | null
  | bool (b : Bool)
  | num (lex : String)
  | str (s : String)
  | arr (elems : List Json)
  | obj (fields : List (String × Json))

/-- JSON insignificant whitespace (space, tab, line feed, carriage return —
narrower than the ECMAScript `\s` class). -/
def skipJWs (l : List Char) : List Char :=
  l.dropWhile (fun c => c = ' ' || c = '\t' || c = '\n' || c = '\r')

/-- Value of one hexadecimal digit of a `\uXXXX` escape (upper or lower
case), written over the code point: 48–57 are the decimal digits, 97–102
map to 10–15, 65–70 map to 10–15. -/
def hexDigit (c : Char) : Option Nat :=
  let n := c.toNat
  if 48 ≤ n && n ≤ 57 then some (n - 48)
  else if 97 ≤ n && n ≤ 102 then some (n - 87)
  else if 65 ≤ n && n ≤ 70 then some (n - 55)
  else none

/-- Lexer for a JSON string body (opening quote already consumed).  JS
strings are UTF-16: a `\uXXXX` escape pair encoding a surrogate pair yields
the combined scalar; a lone surrogate (not representable as a Lean `Char`)
is modelled as U+FFFD.  Raw control characters are rejected as in the JSON
grammar.  `fuel` bounds the recursion (each step consumes input). -/
def lexStrBody : Nat → List Char → Option (List Char × List Char)
  | 0, _ => none
  | _, [] => none
  | fuel + 1, c :: rest =>
    if c = '"' then some ([], rest)
    else if c = '\\' then
      match rest with
      | e :: r2 =>
        if e = '"' || e = '\\' || e = '/' then
          match lexStrBody fuel r2 with
          | some (cs, r) => some (e :: cs, r)
          | none => none
        else if e = 'b' || e = 'f' || e = 'n' || e = 'r' || e = 't' then
          let d : Char :=
            if e = 'b' then Char.ofNat 8
            else if e = 'f' then Char.ofNat 12
            else if e = 'n' then '\n'
            else if e = 'r' then '\r'
            else '\t'
          match lexStrBody fuel r2 with
          | some (cs, r) => some (d :: cs, r)
          | none => none
        else if e = 'u' then
          match r2 with
          | h1 :: h2 :: h3 :: h4 :: r3 =>
            match hexDigit h1, hexDigit h2, hexDigit h3, hexDigit h4 with
            | some a, some b, some c1, some d1 =>
              let n := a * 4096 + b * 256 + c1 * 16 + d1
              if 0xD800 ≤ n && n ≤ 0xDBFF then
                match r3 with
                | '\\' :: 'u' :: g1 :: g2 :: g3 :: g4 :: r4 =>
                  match hexDigit g1, hexDigit g2, hexDigit g3, hexDigit g4 with
                  | some a2, some b2, some c2, some d2 =>
                    let n2 := a2 * 4096 + b2 * 256 + c2 * 16 + d2
                    if 0xDC00 ≤ n2 && n2 ≤ 0xDFFF then
                      let cp := 0x10000 + (n - 0xD800) * 1024 + (n2 - 0xDC00)
                      match lexStrBody fuel r4 with
                      | some (cs, r) => some (Char.ofNat cp :: cs, r)
                      | none => none
                    else
                      match lexStrBody fuel r3 with
                      | some (cs, r) => some (Char.ofNat 0xFFFD :: cs, r)
                      | none => none
                  | _, _, _, _ =>
                    match lexStrBody fuel r3 with
                    | some (cs, r) => some (Char.ofNat 0xFFFD :: cs, r)
                    | none => none
                | _ =>
                  match lexStrBody fuel r3 with
                  | some (cs, r) => some (Char.ofNat 0xFFFD :: cs, r)
                  | none => none
              else if 0xDC00 ≤ n && n ≤ 0xDFFF then
                match lexStrBody fuel r3 with
                | some (cs, r) => some (Char.ofNat 0xFFFD :: cs, r)
                | none => none
              else
                match lexStrBody fuel r3 with
                | some (cs, r) => some (Char.ofNat n :: cs, r)
                | none => none
            | _, _, _, _ => none
          | _ => none
        else none
      | [] => none
    else if c.toNat < 0x20 then none
    else
      match lexStrBody fuel rest with
      | some (cs, r) => some (c :: cs, r)
      | none => none

/-- Lexer for a JSON number.  It consumes the longest valid number lexeme;
a malformed continuation (such as a dot with no following digit) is left
unconsumed, and the caller then fails on it exactly as `JSON.parse` does. -/
def lexNumber (l : List Char) : Option (List Char × List Char) :=
  let (sgn, l1) :=
    match l with
    | '-' :: r => (['-'], r)
    | _ => ([], l)
  let intRes : Option (List Char × List Char) :=
    match l1 with
    | '0' :: r => some (['0'], r)
    | c :: _ => if isDigitC c then some (l1.takeWhile isDigitC, l1.dropWhile isDigitC) else none
    | [] => none
  match intRes with
  | none => none
  | some (ip, l2) =>
    let (fp, l3) :=
      match l2 with
      | '.' :: r =>
        let ds := r.takeWhile isDigitC
        if ds.isEmpty then (([] : List Char), l2) else ('.' :: ds, r.dropWhile isDigitC)
      | _ => ([], l2)
    let (ep, l4) :=
      match l3 with
      | e :: rest =>
        if e = 'e' || e = 'E' then
          let (s2, r2) :=
            match rest with
            | '+' :: rr => ((['+'] : List Char), rr)
            | '-' :: rr => (['-'], rr)
            | _ => ([], rest)
          let ds := r2.takeWhile isDigitC
          if ds.isEmpty then (([] : List Char), l3) else (e :: (s2 ++ ds), r2.dropWhile isDigitC)
        else ([], l3)
      | [] => ([], l3)
    some (sgn ++ ip ++ fp ++ ep, l4)

mutual

/-- Recursive-descent parser for a JSON value, `fuel` bounding the nesting
depth (each level consumes at least one character, so `length + 1` fuel at
the top is always enough). -/
def parseJValue : Nat → List Char → Option (Json × List Char)
  | 0, _ => none
  | fuel + 1, l =>
    match l with
    | [] => none
    | c :: rest =>
      if c = 't' then
        match rest with
        | 'r' :: 'u' :: 'e' :: r => some (.bool true, r)
        | _ => none
      else if c = 'f' then
        match rest with
        | 'a' :: 'l' :: 's' :: 'e' :: r => some (.bool false, r)
        | _ => none
      else if c = 'n' then
        match rest with
        | 'u' :: 'l' :: 'l' :: r => some (.null, r)
        | _ => none
      else if c = '"' then
        match lexStrBody (rest.length + 1) rest with
        | some (cs, r) => some (.str (String.mk cs), r)
        | none => none
      else if c = '[' then
        match skipJWs rest with
        | ']' :: r2 => some (.arr [], r2)
        | r1 =>
          match parseJArrayItems fuel r1 with
          | some (es, r) => some (.arr es, r)
          | none => none
      else if c = '{' then
        match skipJWs rest with
        | '}' :: r2 => some (.obj [], r2)
        | r1 =>
          match parseJObjItems fuel r1 with
          | some (fs, r) => some (.obj fs, r)
          | none => none
      else if c = '-' || isDigitC c then
        match lexNumber l with
        | some (ds, r) => some (.num (String.mk ds), r)
        | none => none
      else none

/-- Parses `value (ws ',' ws value)* ws ']'` for a non-empty array body. -/
def parseJArrayItems : Nat → List Char → Option (List Json × List Char)
  | 0, _ => none
  | fuel + 1, l =>
    match parseJValue fuel l with
    | none => none
    | some (v, r1) =>
      match skipJWs r1 with
      | ',' :: r3 =>
        match parseJArrayItems fuel (skipJWs r3) with
        | some (es, r4) => some (v :: es, r4)
        | none => none
      | ']' :: r3 => some ([v], r3)
      | _ => none

/-- Parses `string ws ':' ws value (ws ',' ws …)* ws '}'` for a non-empty
object body. -/
def parseJObjItems : Nat → List Char → Option (List (String × Json) × List Char)
  | 0, _ => none
  | fuel + 1, l =>
    match l with
    | '"' :: rest =>
      match lexStrBody (rest.length + 1) rest with
      | none => none
      | some (ks, r1) =>
        match skipJWs r1 with
        | ':' :: r3 =>
          match parseJValue fuel (skipJWs r3) with
          | none => none
          | some (v, r4) =>
            match skipJWs r4 with
            | ',' :: r6 =>
              match parseJObjItems fuel (skipJWs r6) with
              | some (fs, r8) => some ((String.mk ks, v) :: fs, r8)
              | none => none
            | '}' :: r6 => some ([(String.mk ks, v)], r6)
            | _ => none
        | _ => none
    | _ => none

end

/-- Embedding of `JSON.parse`: leading and trailing whitespace allowed,
exactly one value, whole input consumed. -/
def jsonParse (l : List Char) : Option Json :=
  let l1 := skipJWs l
  match parseJValue (l1.length + 1) l1 with
  | some (v, r) => if (skipJWs r).isEmpty then some v else none
  | none => none

/-- Property access on a JS object built by `JSON.parse`: with duplicate
keys the last occurrence wins. -/
def lookupField (fs : List (String × Json)) (k : String) : Option Json :=
  (fs.reverse.find? (fun p => p.1 == k)).map (fun p => p.2)

/-- Embedding of `msg.role`-style access: objects look up the field,
non-object non-null values give `undefined` (`none`). -/
def objField : Json → String → Option Json
  | .obj fs, k => lookupField fs k
  | _, _ => none

/-- Whether a number lexeme denotes zero (the only falsy JSON number):
every mantissa digit is `0`. -/
def numLexIsZero (s : String) : Bool :=
  ((s.data.takeWhile (fun c => c ≠ 'e' && c ≠ 'E')).filter isDigitC).all (fun c => c = '0')

/-- JS truthiness of a JSON value. -/
def truthy : Json → Bool
  | .null => false
  | .bool b => b
  | .str s => !(s.isEmpty)
  | .num lex => !(numLexIsZero lex)
  | .arr _ => true
  | .obj _ => true

/-- JS truthiness where `none` models `undefined`. -/
def truthyOpt : Option Json → Bool
  | some j => truthy j
  | none => false

mutual

/-- ECMAScript `ToString` on a parsed JSON value, as invoked by `escape`
inside `fixMojibake`.  A number is rendered as its source lexeme; this is an
approximation of the IEEE-754 canonical formatting (identical whenever the
lexeme is already canonical), and no claim depends on numeric contents. -/
def jsToString : Json → String
  | .null => "null"
  | .bool true => "true"
  | .bool false => "false"
  | .num lex => lex
  | .str s => s
  | .obj _ => "[object Object]"
  | .arr es => jsToStrArr es

/-- Rendering of `Array.prototype.toString` (a comma join in which `null`
elements render as the empty string). -/
def jsToStrArr : List Json → String
  | [] => ""
  | [j] => jsElemStr j
  | j :: rest => jsElemStr j ++ "," ++ jsToStrArr rest

def jsElemStr : Json → String
  | .null => ""
  | j => jsToString j

end

/-- Entry point for the `ToString` coercion applied by `escape` to
`msg.content`: on a string it is the identity (written out so that the
string case reduces without unfolding the recursive `jsToString`). -/
def jsContentString : Json → String
  | .str s => s
  | v => jsToString v

/-- Decoding of one UTF-8-encoded code point from leading byte `b` and the
remaining bytes, exactly as performed by the `Decode` abstract operation
behind `decodeURIComponent`: continuation ranges enforced per leading byte,
overlong encodings, surrogates and code points beyond U+10FFFF rejected.
Returns the character and the bytes left over. -/
def utf8DecodeStep (b : Nat) (rest : List Nat) : Option (Char × List Nat) :=
  if b ≤ 0x7F then some (Char.ofNat b, rest)
  else if 0xC2 ≤ b && b ≤ 0xDF then
    match rest with
    | b2 :: r2 =>
      if 0x80 ≤ b2 && b2 ≤ 0xBF then
        some (Char.ofNat ((b - 0xC0) * 64 + (b2 - 0x80)), r2)
      else none
    | [] => none
  else if 0xE0 ≤ b && b ≤ 0xEF then
    match rest with
    | b2 :: b3 :: r3 =>
      let lo := if b = 0xE0 then 0xA0 else 0x80
      let hi := if b = 0xED then 0x9F else 0xBF
      if lo ≤ b2 && b2 ≤ hi && 0x80 ≤ b3 && b3 ≤ 0xBF then
        some (Char.ofNat ((b - 0xE0) * 4096 + (b2 - 0x80) * 64 + (b3 - 0x80)), r3)
      else none
    | _ => none
  else if 0xF0 ≤ b && b ≤ 0xF4 then
    match rest with
    | b2 :: b3 :: b4 :: r4 =>
      let lo := if b = 0xF0 then 0x90 else 0x80
      let hi := if b = 0xF4 then 0x8F else 0xBF
      if lo ≤ b2 && b2 ≤ hi && 0x80 ≤ b3 && b3 ≤ 0xBF && 0x80 ≤ b4 && b4 ≤ 0xBF then
        some (Char.ofNat ((b - 0xF0) * 262144 + (b2 - 0x80) * 4096 +
                          (b3 - 0x80) * 64 + (b4 - 0x80)), r4)
      else none
    | _ => none
  else none

/-- Strict UTF-8 decoding of a whole byte sequence.  Each step consumes at
least one byte, so `fuel` bounds the number of steps. -/
def utf8DecodeF : Nat → List Nat → Option (List Char)
  | 0, _ => none
  | _ + 1, [] => some []
  | fuel + 1, b :: rest =>
    match utf8DecodeStep b rest with
    | some (c, r) =>
      match utf8DecodeF fuel r with
      | some cs => some (c :: cs)
      | none => none
    | none => none

def utf8Decode (l : List Nat) : Option (List Char) :=
  utf8DecodeF (l.length + 1) l

/-- Embedding of `fixMojibake = (text) => { try { return
decodeURIComponent(escape(text)); } catch (e) { return text; } }`.

`escape` renders every code unit up to 255 as itself or `%XX` and anything
above 255 as `%uXXXX`; `decodeURIComponent` throws on `%u`, and otherwise
re-decodes the byte sequence as strict UTF-8, throwing when it is
ill-formed.  The composite is therefore: if any character is above U+00FF,
or the characters reinterpreted as bytes are not well-formed UTF-8, return
the text unchanged; otherwise return the UTF-8 decoding. -/
def fixMojibake (s : String) : String :=
  if s.data.any (fun c => 255 < c.toNat) then s
  else
    match utf8Decode (s.data.map Char.toNat) with
    | some cs => String.mk cs
    | none => s

/-- Embedding of `role.charAt(0).toUpperCase() + role.slice(1)`.  The Lean
`Char.toUpper` performs the ASCII case mapping; `String.prototype
.toUpperCase` uses the full Unicode mapping, which agrees on the ASCII
range (the only range exercised by any claim). -/
def upperFirst (s : String) : String :=
  match s.data with
  | [] => ""
  | c :: rest => String.mk (c.toUpper :: rest)

/-- One step of the `jsonMessages.forEach` loop.  `none` models a thrown
`TypeError` (property access on `null`, or `charAt` on a truthy non-string
role), which aborts the whole structured-data path. -/
def processJsonStep (acc : List Message × List String) (j : Json) :
    Option (List Message × List String) :=
  match j with
  | .null => none
  | _ =>
    let role := objField j "role"
    let content := objField j "content"
    if truthyOpt role && truthyOpt content then
      match role with
      | some (.str r) =>
        let sender := upperFirst r
        some (acc.1 ++ [{ date := "", time := "", sender := sender,
                          content := fixMojibake (jsContentString (content.getD .null)) }],
              addParticipant acc.2 sender)
      | _ => none
    else some acc

/-- The whole `jsonMessages.forEach` loop. -/
def processJsonMsgs (es : List Json) : Option (List Message × List String) :=
  es.foldlM processJsonStep ([], [])

/-- The candidate message array:
`Array.isArray(json) ? json : (json.messages || [])` followed by the
`Array.isArray(jsonMessages)` guard.  `none` covers both the thrown access
on `null` and a truthy non-array `messages` field (either way the
structured path yields nothing). -/
def jsonCandidates : Json → Option (List Json)
  | .arr es => some es
  | .obj fs =>
    match lookupField fs "messages" with
    | none => some []
    | some v =>
      if truthy v then
        match v with
        | .arr es => some es
        | _ => none
      else some []
  | .null => none
  | _ => some []

/-- The two markdown-fence `replace` calls:
`.replace(/^```json\s*/i, '').replace(/^```\s*/i, '').replace(/\s*```$/, '')`
(a backtick is the character 96). -/
def stripFences (t : List Char) : List Char :=
  let t1 :=
    match t with
    | g1 :: g2 :: g3 :: c1 :: c2 :: c3 :: c4 :: r =>
      if g1.toNat = 96 && g2.toNat = 96 && g3.toNat = 96 &&
         (c1 = 'j' || c1 = 'J') && (c2 = 's' || c2 = 'S') &&
         (c3 = 'o' || c3 = 'O') && (c4 = 'n' || c4 = 'N')
      then r.dropWhile isJsWs else t
    | _ => t
  let t2 :=
    match t1 with
    | g1 :: g2 :: g3 :: r =>
      if g1.toNat = 96 && g2.toNat = 96 && g3.toNat = 96
      then r.dropWhile isJsWs else t1
    | _ => t1
  match t2.reverse with
  | g1 :: g2 :: g3 :: rr =>
    if g1.toNat = 96 && g2.toNat = 96 && g3.toNat = 96
    then (rr.dropWhile isJsWs).reverse else t2
  | _ => t2

/-- The structured-data attempt at the top of `parseChat` (the whole `try`
block).  `some r` means the block returned `r`; `none` means it fell
through or threw, so line parsing runs. -/
def tryJson (raw : List Char) : Option ParseResult :=
  match stripFences (jsTrim raw) with
  | c :: rest =>
    if c = '{' || c = '[' then
      match jsonParse (c :: rest) with
      | none => none
      | some j =>
        match jsonCandidates j with
        | none => none
        | some [] => none
        | some es =>
          match processJsonMsgs es with
          | none => none
          | some (msgs, parts) => if msgs.isEmpty then none else some ⟨msgs, parts⟩
    else none
  | [] => none

/-- Embedding of `parseChat`. -/
def parseChat (raw : List Char) : ParseResult :=
  match tryJson raw with
  | some r => r
  | none => parseLines raw

/-- Deduplication in first-seen order: the sequence a JS `Set` yields after
adding each element of `l` in order. -/
def dedupSeq (l : List String) : List String := l.foldl addParticipant []

/-- The senders, in order, of the messages a loop state accounts for: the
emitted messages followed by the accumulating one. -/
def senderSeq (st : LineState) : List String :=
  st.messages.map Message.sender ++ st.current.toList.map Message.sender

/-- The message an element of the structured-data array contributes, per the
amended claim: present when both `role` (a string) and `content` are
truthy. -/
def msgOfElement (j : Json) : Option Message :=
  match objField j "role", objField j "content" with
  | some (Json.str r), some cv =>
    if truthy (Json.str r) && truthy cv then
      some { date := "", time := "", sender := upperFirst r,
             content := fixMojibake (jsContentString cv) }
    else none
  | _, _ => none

/-! Helper lemmas. -/

theorem stringMk_data : ∀ s : String, String.mk s.data = s
  | ⟨_⟩ => rfl

theorem ascii_utf8DecodeF :
    ∀ (cs : List Char) (fuel : Nat), cs.length < fuel →
      (cs.all fun c => c.toNat ≤ 127) = true →
      utf8DecodeF fuel (cs.map Char.toNat) = some cs := by
  intro cs
  induction cs with
  | nil =>
    intro fuel hlen _
    cases fuel with
    | zero => omega
    | succ n => rfl
  | cons c rest ih =>
    intro fuel hlen hall
    cases fuel with
    | zero => omega
    | succ n =>
      rw [List.all_cons, Bool.and_eq_true, decide_eq_true_eq] at hall
      have hrec := ih n (by simp only [List.length_cons] at hlen; omega) hall.2
      have hstep : utf8DecodeStep c.toNat (List.map Char.toNat rest) =
          some (Char.ofNat c.toNat, List.map Char.toNat rest) := by
        unfold utf8DecodeStep
        rw [if_pos (by omega : c.toNat ≤ 0x7F)]
      simp only [List.map_cons, utf8DecodeF, hstep, hrec, Char.ofNat_toNat]

theorem ascii_utf8Decode (cs : List Char) (h : (cs.all fun c => c.toNat ≤ 127) = true) :
    utf8Decode (cs.map Char.toNat) = some cs := by
  unfold utf8Decode
  rw [List.length_map]
  exact ascii_utf8DecodeF cs (cs.length + 1) (by omega) h

theorem head?_dropWhile_not {p : Char → Bool} :
    ∀ (l : List Char) (c : Char), (l.dropWhile p).head? = some c → p c = false := by
  intro l
  induction l with
  | nil => intro c h; simp [List.dropWhile] at h
  | cons x t ih =>
    intro c h
    rw [List.dropWhile_cons] at h
    by_cases hp : p x = true
    · rw [if_pos hp] at h; exact ih c h
    · rw [if_neg hp] at h
      simp only [List.head?_cons, Option.some.injEq] at h
      subst h
      simp only [Bool.not_eq_true] at hp
      exact hp

theorem mem_of_getLast? {l : List Char} {c : Char} (h : l.getLast? = some c) : c ∈ l := by
  rw [← List.head?_reverse] at h
  have : c ∈ l.reverse := by
    cases hl : l.reverse with
    | nil => rw [hl] at h; simp at h
    | cons x t =>
      rw [hl] at h
      simp only [List.head?_cons, Option.some.injEq] at h
      subst h
      exact List.mem_cons_self _ _
  exact List.mem_reverse.mp this

theorem lineTerm_isJsWs {c : Char} (h : isLineTerm c = true) : isJsWs c = true := by
  simp only [isLineTerm, Bool.or_eq_true, decide_eq_true_eq] at h
  simp only [isJsWs, Bool.or_eq_true, decide_eq_true_eq, Bool.and_eq_true]
  tauto

theorem jsTrim_getLast?_not_ws :
    ∀ (l : List Char) (c : Char), (jsTrim l).getLast? = some c → isJsWs c = false := by
  intro l c h
  unfold jsTrim at h
  rw [List.getLast?_reverse] at h
  exact head?_dropWhile_not _ c h

theorem cleanText_getLast?_not_ws (l : List Char) (c : Char)
    (h : (cleanText (jsTrim l)).getLast? = some c) : isJsWs c = false := by
  unfold cleanText at h
  rw [List.getLast?_map] at h
  cases hl : (jsTrim l).getLast? with
  | none => rw [hl] at h; simp at h
  | some c0 =>
    rw [hl] at h
    simp only [Option.map_some', Option.some.injEq] at h
    have hws : isJsWs c0 = false := jsTrim_getLast?_not_ws l c0 hl
    have hne : (c0.toNat = 0x202F || c0.toNat = 0xA0) = false := by
      by_contra hcon
      rw [Bool.not_eq_false, Bool.or_eq_true, decide_eq_true_eq, decide_eq_true_eq] at hcon
      have hcw : isJsWs c0 = true := by
        simp only [isJsWs, Bool.or_eq_true, decide_eq_true_eq, Bool.and_eq_true]
        tauto
      rw [hws] at hcw
      exact Bool.false_ne_true hcw
    rw [hne] at h
    simp only [Bool.false_eq_true, if_false] at h
    subst h
    exact hws

theorem jsTrim_ne_nil_of_head (c : Char) (t : List Char) (hc : isJsWs c = false) :
    jsTrim (c :: t) ≠ [] := by
  unfold jsTrim
  rw [List.dropWhile_cons, if_neg (by simp [hc])]
  intro hcon
  rw [List.reverse_eq_nil_iff, List.dropWhile_eq_nil_iff] at hcon
  have := hcon c (by simp)
  rw [hc] at this; exact Bool.false_ne_true this

/-! Claim theorems. -/

/-- C1: for every input string, `parse` returns a `ParseResult` and never
raises (`parseChat` is a total function of the input, and whenever the
structured-data attempt yields nothing — a parse failure included — the
result is that of line parsing, where unmatched lines degrade to
continuation-or-drop); in particular `\x7bnot valid json` falls through to
line parsing where no line matches a header, so the result is empty. -/
theorem C1_total_with_fallback :
    parseChat (String.data "\x7bnot valid json") = { messages := [], participants := [] } ∧
    ∀ raw : List Char, tryJson raw = none → parseChat raw = parseLines raw := by
  refine ⟨by decide, ?_⟩
  intro raw h
  simp only [parseChat, h]

/-- Witness for C1 at the concrete input of the claim. -/
theorem C1_total_with_fallback_witness :
    parseChat (String.data "\x7bnot valid json") = parseLines (String.data "\x7bnot valid json") :=
  C1_total_with_fallback.2 _ (by decide)

/-- C2: a line matched by `android_iso` is always parsed by `android_iso`
(the first matching pattern of the fixed order wins, so later patterns —
`generic` included — are never consulted); on the claim's input the result
is one message with sender `Sam`, date `2025-06-12`, time `11:20 a.m.` and
content `hello`. -/
theorem C2_android_iso_precedence :
    (∀ (l : List Char) (e : Extracted), matchAndroidIso l = some e → tryPatterns l = some e) ∧
    parseChat (String.data "2025-06-12, 11:20 a.m. - Sam: hello") =
      { messages := [{ date := "2025-06-12", time := "11:20 a.m.", sender := "Sam",
                       content := "hello" }],
        participants := ["Sam"] } := by
  refine ⟨?_, by decide⟩
  intro l e h
  simp only [tryPatterns, h]

/-- Witness for C2 at the claim's concrete line. -/
theorem C2_android_iso_precedence_witness :
    tryPatterns (String.data "2025-06-12, 11:20 a.m. - Sam: hello") =
      some ⟨String.data "2025-06-12", String.data "11:20 a.m.", String.data "Sam",
            String.data "hello"⟩ :=
  C2_android_iso_precedence.1 _ _ (by decide)

/-- C3: on the claim's JSON array input the structured-data fast path
produces the result directly (line parsing cannot run, since `parseChat`
returns whatever the fast path returns): two messages with senders `User`
and `Assistant` (role with its first character upper-cased), empty date and
time, and participants `[User, Assistant]` in that order. -/
theorem C3_json_fast_path :
    (∀ (raw : List Char) (r : ParseResult), tryJson raw = some r → parseChat raw = r) ∧
    tryJson (String.data "[\x7b\"role\":\"user\",\"content\":\"hi\"\x7d,\x7b\"role\":\"assistant\",\"content\":\"hello\"\x7d]") =
      some { messages := [{ date := "", time := "", sender := "User", content := "hi" },
                          { date := "", time := "", sender := "Assistant", content := "hello" }],
             participants := ["User", "Assistant"] } := by
  refine ⟨?_, by decide⟩
  intro raw r h
  simp only [parseChat, h]

/-- Witness for C3: the fast-path result is the parse result on the
claim's input. -/
theorem C3_json_fast_path_witness :
    parseChat (String.data "[\x7b\"role\":\"user\",\"content\":\"hi\"\x7d,\x7b\"role\":\"assistant\",\"content\":\"hello\"\x7d]") =
      { messages := [{ date := "", time := "", sender := "User", content := "hi" },
                     { date := "", time := "", sender := "Assistant", content := "hello" }],
        participants := ["User", "Assistant"] } :=
  C3_json_fast_path.1 _ _ (by decide)

/-- C5: a non-blank line matching no header pattern, with a message
accumulating, is appended to that message's content after a newline; the
claim's two-line input yields exactly one message with sender `Alex` and
content `first line\nsecond line`. -/
theorem C5_continuation_merge :
    (∀ (st : LineState) (line : List Char) (m : Message),
        st.current = some m →
        (cleanText (jsTrim line)).isEmpty = false →
        tryPatterns (cleanText (jsTrim line)) = none →
        processLine st line =
          { st with current := some { m with
              content := m.content ++ "\n" ++ String.mk (cleanText (jsTrim line)) } }) ∧
    parseChat (String.data "Alex: first line\nsecond line") =
      { messages := [{ date := "Unknown", time := "", sender := "Alex",
                       content := "first line\nsecond line" }],
        participants := ["Alex"] } := by
  refine ⟨?_, by decide⟩
  intro st line m hc he hp
  simp only [processLine, he, hp, hc, Bool.false_eq_true, if_false]

/-- Witness for C5 at a concrete loop state and continuation line. -/
theorem C5_continuation_merge_witness :
    processLine
        ⟨[], ["Alex"], some { date := "Unknown", time := "", sender := "Alex",
                              content := "first line" }⟩
        (String.data "second line") =
      ⟨[], ["Alex"], some { date := "Unknown", time := "", sender := "Alex",
                            content := "first line\nsecond line" }⟩ :=
  C5_continuation_merge.1 _ (String.data "second line") _ rfl (by decide) (by decide)

/-- C9: `fixMojibake` never raises and returns the text unchanged on every
already-correct input: ASCII text comes back identical (its byte
reinterpretation decodes to itself), text containing any character above
U+00FF comes back identical (the `escape`d form is not decodable), and
text whose single-byte reinterpretation is not well-formed UTF-8 comes
back identical (the decode throws and is caught).  These three cases
exhaust clean text: a non-ASCII string of characters at most U+00FF whose
byte reinterpretation IS valid UTF-8 is precisely the double-encoded
mojibake the function exists to repair. -/
theorem C9_fixMojibake_preserves_clean :
    ∀ s : String,
      ((s.data.all fun c => c.toNat ≤ 127) = true → fixMojibake s = s) ∧
      ((s.data.any fun c => 255 < c.toNat) = true → fixMojibake s = s) ∧
      (utf8Decode (s.data.map Char.toNat) = none → fixMojibake s = s) := by
  intro s
  refine ⟨?_, ?_, ?_⟩
  · intro h
    have hno : (s.data.any fun c => 255 < c.toNat) = false := by
      rw [List.any_eq_false]
      intro x hx
      rw [List.all_eq_true] at h
      have hle := h x hx
      simp only [decide_eq_true_eq] at hle ⊢
      omega
    have hdec := ascii_utf8Decode s.data h
    simp only [fixMojibake, hno, Bool.false_eq_true, if_false]
    rw [hdec]
  · intro h
    simp only [fixMojibake, h, if_true]
  · intro h
    by_cases hb : (s.data.any fun c => 255 < c.toNat) = true
    · simp only [fixMojibake, hb, if_true]
    · simp only [fixMojibake, hb, Bool.false_eq_true, if_false, h]

/-- Witness for C9: an ASCII string, a string with a character above
U+00FF, and a Latin-1 string whose byte form is invalid UTF-8, each
unchanged. -/
theorem C9_fixMojibake_preserves_clean_witness :
    fixMojibake "hi" = "hi" ∧ fixMojibake "😀" = "😀" ∧ fixMojibake "é" = "é" :=
  ⟨(C9_fixMojibake_preserves_clean "hi").1 (by decide),
   (C9_fixMojibake_preserves_clean "😀").2.1 (by decide),
   (C9_fixMojibake_preserves_clean "é").2.2 (by decide)⟩

/-- C4 counterexample: a line whose prefix before its first colon is longer
than 31 characters CAN still be treated as a header — the `ios_brackets`
pattern allows unbounded whitespace between date and time, putting the
first colon (the time colon) past index 31.  This line (prefix of 39
characters before its first colon) yields one message instead of being
dropped. -/
theorem C4_long_prefix_header_counterexample :
    31 < ((String.data "[1/1/25,                              1:11] A: hi").takeWhile
            notColon).length ∧
    parseChat (String.data "[1/1/25,                              1:11] A: hi") =
      { messages := [{ date := "1/1/25", time := "1:11", sender := "A", content := "hi" }],
        participants := ["A"] } :=
  ⟨by decide, by decide⟩

/-- C4 (amended): a line whose prefix before its first colon is longer than
31 characters never matches the GENERIC pattern (it may still match a dated
pattern such as `ios_brackets`); the claim's concrete sentence matches no
pattern at all, so alone it is dropped, and after a matched header it is
appended as a continuation. -/
theorem C4_generic_cap :
    (∀ l : List Char, 31 < (l.takeWhile notColon).length → matchGeneric l = none) ∧
    parseChat (String.data "This is a long sentence that happens to contain a colon: and continues past thirty one characters") =
      { messages := [], participants := [] } ∧
    parseChat (String.data "Alex: hi\nThis is a long sentence that happens to contain a colon: and continues past thirty one characters") =
      { messages := [{ date := "Unknown", time := "", sender := "Alex",
                       content := "hi\nThis is a long sentence that happens to contain a colon: and continues past thirty one characters" }],
        participants := ["Alex"] } := by
  refine ⟨?_, by decide, by decide⟩
  intro l h
  cases l with
  | nil => simp at h
  | cons c t =>
    have hlen : ¬ ((c :: t).takeWhile notColon).length ≤ 31 := by omega
    unfold matchGeneric
    split
    · rfl
    · split
      · rfl
      · split
        all_goals rfl

/-- Witness for C4 at the claim's concrete over-long line. -/
theorem C4_generic_cap_witness :
    matchGeneric (String.data "This is a long sentence that happens to contain a colon: and continues past thirty one characters") = none :=
  C4_generic_cap.1 _ (by decide)

/-- Inversion of a successful `generic` match: the line is non-empty, its
head is neither whitespace nor a colon, the line's first colon exists, and
the content capture comes from `genContent` on the text after it. -/
theorem matchGeneric_some_inv (l : List Char) (e : Extracted) (h : matchGeneric l = some e) :
    ∃ c t rest, l = c :: t ∧ (isJsWs c || c = ':') = false ∧
      l.dropWhile notColon = ':' :: rest ∧
      genContent rest = some e.content ∧
      e.date = [] ∧ e.time = [] ∧ e.sender = l.takeWhile notColon := by
  cases l with
  | nil => exact absurd h (by simp [matchGeneric])
  | cons c t =>
    unfold matchGeneric at h
    split at h
    · exact absurd h (by simp)
    · rename_i x c2 rest2 heq
      injection heq with hc ht
      subst hc
      subst ht
      split at h
      · exact absurd h (by simp)
      · rename_i hws
        split at h
        · rename_i rest heq2
          split at h
          · rename_i hlen
            split at h
            · rename_i content hg
              injection h with h'
              subst h'
              refine ⟨c, t, rest, rfl, ?_, heq2, hg, rfl, rfl, rfl⟩
              simp only [Bool.not_eq_true] at hws
              exact hws
            · exact absurd h (by simp)
          · exact absurd h (by simp)
        · exact absurd h (by simp)

/-- C7 counterexample: a message created from a matched `android_iso`
header line with nothing after the sender colon has EMPTY content. -/
theorem C7_empty_content_counterexample :
    parseChat (String.data "2025-06-12, 11:20 a.m. - Sam:") =
      { messages := [{ date := "2025-06-12", time := "11:20 a.m.", sender := "Sam",
                       content := "" }],
        participants := ["Sam"] } := by decide

/-- C7 (amended): a message created from a matched GENERIC header line has
non-empty content (the generic pattern requires whitespace and then at
least one character after the colon, and the processed line is trimmed);
messages created from the dated patterns may have empty content when
nothing follows the sender colon.  The message's content is the trimmed
extracted capture, so the statement is that the trim of the capture of a
generic match on a cleaned line is non-empty. -/
theorem C7_generic_content_nonempty :
    ∀ (l : List Char) (e : Extracted),
      matchGeneric (cleanText (jsTrim l)) = some e → jsTrim e.content ≠ [] := by
  intro l e h
  obtain ⟨c, t, rest, hcl, hws, hd, hg, _, _, _⟩ := matchGeneric_some_inv _ e h
  rw [hcl] at hd
  unfold genContent at hg
  by_cases hw : (rest.takeWhile isJsWs).isEmpty = true
  · rw [if_pos hw] at hg
    exact absurd hg (by simp)
  · rw [if_neg hw] at hg
    by_cases hr : (rest.dropWhile isJsWs).isEmpty = true
    · exfalso
      have hrest : rest.dropWhile isJsWs = [] := List.isEmpty_eq_true.mp hr
      have hrne : rest ≠ [] := by
        intro hcon
        rw [hcon] at hw
        simp [List.takeWhile_nil] at hw
      have hsplit : (c :: t).takeWhile notColon ++ ((c :: t).dropWhile notColon) = c :: t :=
        List.takeWhile_append_dropWhile _ _
      rw [hd] at hsplit
      have hlast : (c :: t).getLast? = rest.getLast? := by
        rw [← hsplit, List.getLast?_append_of_ne_nil _ (by simp : (':' :: rest : List Char) ≠ []),
          show (':' :: rest : List Char) = [':'] ++ rest from rfl,
          List.getLast?_append_of_ne_nil _ hrne]
      obtain ⟨cw, hcw⟩ : ∃ cw, rest.getLast? = some cw :=
        ⟨rest.getLast hrne, List.getLast?_eq_getLast rest hrne⟩
      have hallws : ∀ x ∈ rest, isJsWs x = true := List.dropWhile_eq_nil_iff.mp hrest
      have hwsw : isJsWs cw = true := hallws cw (mem_of_getLast? hcw)
      have hclast : (cleanText (jsTrim l)).getLast? = some cw := by
        rw [hcl, hlast, hcw]
      have hcon := cleanText_getLast?_not_ws l cw hclast
      rw [hwsw] at hcon
      exact absurd hcon (by simp)
    · rw [if_neg hr] at hg
      injection hg with hg'
      cases hx : rest.dropWhile isJsWs with
      | nil => rw [hx] at hr; simp at hr
      | cons y ys =>
        have hyws : isJsWs y = false := head?_dropWhile_not rest y (by rw [hx]; rfl)
        have hyterm : notLineTerm y = true := by
          unfold notLineTerm
          cases hyt : isLineTerm y
          · rfl
          · have hcw := lineTerm_isJsWs hyt
            rw [hyws] at hcw
            exact absurd hcw (by simp)
        rw [hx, List.takeWhile_cons, if_pos hyterm] at hg'
        rw [← hg']
        exact jsTrim_ne_nil_of_head y _ hyws

/-- Witness for C7 at a concrete generic line. -/
theorem C7_generic_content_nonempty_witness :
    jsTrim (String.data "hi") ≠ [] :=
  C7_generic_content_nonempty (String.data "Alex: hi")
    ⟨[], [], String.data "Alex", String.data "hi"⟩ (by decide)

/-- C8 counterexample: a message produced from a generic-pattern header
line has date `Unknown`, not the empty string — the loop replaces the
generic pattern's empty extracted date with the sentinel via
`extracted.date || 'Unknown'`. -/
theorem C8_generic_date_counterexample :
    parseChat (String.data "Alex: hi") =
      { messages := [{ date := "Unknown", time := "", sender := "Alex", content := "hi" }],
        participants := ["Alex"] } := by decide

/-- Inversion of a successful step of the `forEach` loop: either the
element was skipped (missing or falsy `role`/`content`) and the state is
unchanged, or a message with empty date and time was appended and its
sender added to the participants. -/
theorem processJsonStep_some_inv (acc : List Message × List String) (j : Json)
    (acc' : List Message × List String) (hstep : processJsonStep acc j = some acc') :
    (acc' = acc ∧
     (truthyOpt (objField j "role") && truthyOpt (objField j "content")) = false) ∨
    ∃ r cv, objField j "role" = some (Json.str r) ∧ objField j "content" = some cv ∧
      truthy (Json.str r) = true ∧ truthy cv = true ∧
      acc' = (acc.1 ++ [{ date := "", time := "", sender := upperFirst r,
                          content := fixMojibake (jsContentString cv) }],
              addParticipant acc.2 (upperFirst r)) := by
  cases j with
  | null => exact absurd hstep (by simp [processJsonStep])
  | bool b =>
    simp [processJsonStep, objField, truthyOpt] at hstep
    exact Or.inl ⟨hstep.symm, by simp [objField, truthyOpt]⟩
  | num lex =>
    simp [processJsonStep, objField, truthyOpt] at hstep
    exact Or.inl ⟨hstep.symm, by simp [objField, truthyOpt]⟩
  | str s =>
    simp [processJsonStep, objField, truthyOpt] at hstep
    exact Or.inl ⟨hstep.symm, by simp [objField, truthyOpt]⟩
  | arr es =>
    simp [processJsonStep, objField, truthyOpt] at hstep
    exact Or.inl ⟨hstep.symm, by simp [objField, truthyOpt]⟩
  | obj fs =>
    simp only [processJsonStep] at hstep
    split at hstep
    · rename_i htru
      rw [Bool.and_eq_true] at htru
      split at hstep
      · rename_i role2 r hrole
        right
        cases hcv : objField (Json.obj fs) "content" with
        | none =>
          rw [hcv] at htru
          simp [truthyOpt] at htru
        | some cv =>
          refine ⟨r, cv, ?_, rfl, ?_, ?_, ?_⟩
          · rw [← hrole]
          · have h1 := htru.1
            rw [hrole] at h1
            simpa [truthyOpt] using h1
          · have h2 := htru.2
            rw [hcv] at h2
            simpa [truthyOpt] using h2
          · injection hstep with h'
            rw [hcv] at h'
            exact h'.symm
      · exact absurd hstep (by simp)
    · rename_i hfalse
      refine Or.inl ⟨by injection hstep with h'; exact h'.symm, ?_⟩
      simpa using hfalse

/-- Folding `processJsonStep` preserves any property of the accumulated
message list that holds of the empty-date empty-time messages it appends. -/
theorem processJson_fold_dates :
    ∀ (es : List Json) (acc res : List Message × List String),
      (∀ m ∈ acc.1, m.date = "") → es.foldlM processJsonStep acc = some res →
      ∀ m ∈ res.1, m.date = "" := by
  intro es
  induction es with
  | nil =>
    intro acc res hacc h
    rw [List.foldlM_nil] at h
    injection h with h'
    subst h'
    exact hacc
  | cons j rest ih =>
    intro acc res hacc h
    rw [List.foldlM_cons] at h
    cases hs : processJsonStep acc j with
    | none => rw [hs] at h; exact absurd h (by simp)
    | some acc' =>
      rw [hs] at h
      simp only [Option.bind_eq_bind, Option.some_bind] at h
      refine ih acc' res ?_ h
      rcases processJsonStep_some_inv acc j acc' hs with ⟨heq, _⟩ | ⟨r, cv, _, _, _, _, heq⟩
      · subst heq; exact hacc
      · subst heq
        intro m hm
        rw [List.mem_append] at hm
        rcases hm with hm | hm
        · exact hacc m hm
        · rw [List.mem_singleton] at hm
          subst hm
          rfl

/-- C8 (amended): the generic pattern extracts an empty date, the loop
replaces an empty extracted date with the sentinel `Unknown` (so a
generic-derived message has date `Unknown`), and every message of the JSON
fast path has an empty date. -/
theorem C8_dates :
    (∀ (l : List Char) (e : Extracted), matchGeneric l = some e → e.date = []) ∧
    (∀ e : Extracted, e.date = [] → (mkMessage e).date = "Unknown") ∧
    (∀ (es : List Json) (res : List Message × List String),
        processJsonMsgs es = some res → ∀ m ∈ res.1, m.date = "") := by
  refine ⟨?_, ?_, ?_⟩
  · intro l e h
    obtain ⟨_, _, _, _, _, _, _, hdate, _, _⟩ := matchGeneric_some_inv l e h
    exact hdate
  · intro e h
    simp [mkMessage, h]
  · intro es res h
    exact processJson_fold_dates es ([], []) res (by intro m hm; simp at hm) h

/-- Witness for C8 at concrete inputs of each conjunct. -/
theorem C8_dates_witness :
    (⟨[], [], String.data "Alex", String.data "hi"⟩ : Extracted).date = [] ∧
    (mkMessage ⟨[], [], String.data "Alex", String.data "hi"⟩).date = "Unknown" ∧
    (∀ m ∈ ([{ date := "", time := "", sender := "User", content := "hi" }] : List Message),
        m.date = "") :=
  ⟨C8_dates.1 (String.data "Alex: hi") _ (by decide),
   C8_dates.2.1 _ (by decide),
   C8_dates.2.2 [Json.obj [("role", Json.str "user"), ("content", Json.str "hi")]]
     ([{ date := "", time := "", sender := "User", content := "hi" }], ["User"]) (by decide)⟩

/-! Lemmas for the participants invariant (C6) and the structured-path
element refinement (C10). -/

theorem dedupSeq_concat (xs : List String) (x : String) :
    dedupSeq (xs ++ [x]) = addParticipant (dedupSeq xs) x := by
  simp [dedupSeq, List.foldl_append]

theorem addParticipant_nodup {ps : List String} (h : ps.Nodup) (s : String) :
    (addParticipant ps s).Nodup := by
  unfold addParticipant
  split
  · exact h
  · rename_i hmem
    rw [List.nodup_append]
    exact ⟨h, List.nodup_singleton s, by simpa [List.disjoint_singleton] using hmem⟩

theorem dedupSeq_nodup_aux :
    ∀ (l : List String) (acc : List String), acc.Nodup → (l.foldl addParticipant acc).Nodup := by
  intro l
  induction l with
  | nil => intro acc h; exact h
  | cons x t ih =>
    intro acc h
    rw [List.foldl_cons]
    exact ih _ (addParticipant_nodup h x)

theorem dedupSeq_nodup (l : List String) : (dedupSeq l).Nodup :=
  dedupSeq_nodup_aux l [] List.nodup_nil

theorem processLine_participants (st : LineState) (line : List Char)
    (h : st.participants = dedupSeq (senderSeq st)) :
    (processLine st line).participants = dedupSeq (senderSeq (processLine st line)) := by
  unfold processLine
  split
  · exact h
  · split
    · rename_i e heq
      show addParticipant st.participants (String.mk (jsTrim e.sender)) = _
      rw [h]
      simp only [senderSeq, List.map_append, mkMessage, Option.toList_some, List.map_cons,
        List.map_nil]
      exact (dedupSeq_concat _ _).symm
    · split
      · rename_i m hcur
        show st.participants = _
        rw [h]
        unfold senderSeq
        rw [hcur]
        rfl
      · exact h

theorem foldl_processLine_participants :
    ∀ (lines : List (List Char)) (st : LineState),
      st.participants = dedupSeq (senderSeq st) →
      (lines.foldl processLine st).participants =
        dedupSeq (senderSeq (lines.foldl processLine st)) := by
  intro lines
  induction lines with
  | nil => intro st h; exact h
  | cons a t ih =>
    intro st h
    rw [List.foldl_cons]
    exact ih _ (processLine_participants st a h)

theorem parseLines_participants (raw : List Char) :
    (parseLines raw).participants = dedupSeq ((parseLines raw).messages.map Message.sender) := by
  unfold parseLines
  have h := foldl_processLine_participants (splitOnNl raw) ⟨[], [], none⟩ rfl
  simpa [senderSeq, List.map_append] using h

theorem processJson_fold_participants :
    ∀ (es : List Json) (acc res : List Message × List String),
      acc.2 = dedupSeq (acc.1.map Message.sender) →
      es.foldlM processJsonStep acc = some res →
      res.2 = dedupSeq (res.1.map Message.sender) := by
  intro es
  induction es with
  | nil =>
    intro acc res hacc h
    rw [List.foldlM_nil] at h
    injection h with h'
    subst h'
    exact hacc
  | cons j rest ih =>
    intro acc res hacc h
    rw [List.foldlM_cons] at h
    cases hs : processJsonStep acc j with
    | none => rw [hs] at h; exact absurd h (by simp)
    | some acc' =>
      rw [hs] at h
      simp only [Option.bind_eq_bind, Option.some_bind] at h
      refine ih acc' res ?_ h
      rcases processJsonStep_some_inv acc j acc' hs with ⟨heq, _⟩ | ⟨r, cv, _, _, _, _, heq⟩
      · subst heq; exact hacc
      · subst heq
        rw [hacc, List.map_append]
        exact (dedupSeq_concat _ _).symm

theorem tryJson_participants (raw : List Char) (r : ParseResult) (h : tryJson raw = some r) :
    r.participants = dedupSeq (r.messages.map Message.sender) := by
  unfold tryJson at h
  split at h
  · split at h
    · split at h
      · exact absurd h (by simp)
      · split at h
        · exact absurd h (by simp)
        · simp at h
        · rename_i es hne hcand
          split at h
          · simp at h
          · rename_i msgs parts hfold
            split at h
            · exact absurd h (by simp)
            · injection h with h'
              subst h'
              exact processJson_fold_participants es ([], []) (msgs, parts) rfl hfold
    · exact absurd h (by simp)
  · exact absurd h (by simp)

theorem msgOfElement_none_of_falsy (j : Json)
    (hf : (truthyOpt (objField j "role") && truthyOpt (objField j "content")) = false) :
    msgOfElement j = none := by
  unfold msgOfElement
  split
  · rename_i r cv hrole hcv
    rw [hrole, hcv] at hf
    simp only [truthyOpt] at hf
    rw [hf]
    rfl
  · rfl

theorem msgOfElement_some_of_truthy (j : Json) (r : String) (cv : Json)
    (hrole : objField j "role" = some (Json.str r)) (hcv : objField j "content" = some cv)
    (htr : truthy (Json.str r) = true) (htc : truthy cv = true) :
    msgOfElement j = some { date := "", time := "", sender := upperFirst r,
                            content := fixMojibake (jsContentString cv) } := by
  unfold msgOfElement
  split
  · rename_i r2 cv2 hrole2 hcv2
    rw [hrole] at hrole2
    rw [hcv] at hcv2
    injection hrole2 with hr2
    injection hcv2 with hc2
    injection hr2 with hr3
    subst hr3
    subst hc2
    rw [htr, htc]
    rfl
  · rename_i hnone
    exact absurd hrole (by
      intro hcon
      exact hnone r cv hcon hcv)

theorem processJson_fold_filterMap :
    ∀ (es : List Json) (acc res : List Message × List String),
      es.foldlM processJsonStep acc = some res →
      res.1 = acc.1 ++ es.filterMap msgOfElement := by
  intro es
  induction es with
  | nil =>
    intro acc res h
    rw [List.foldlM_nil] at h
    injection h with h'
    subst h'
    simp
  | cons j rest ih =>
    intro acc res h
    rw [List.foldlM_cons] at h
    cases hs : processJsonStep acc j with
    | none => rw [hs] at h; exact absurd h (by simp)
    | some acc' =>
      rw [hs] at h
      simp only [Option.bind_eq_bind, Option.some_bind] at h
      have hres := ih acc' res h
      rcases processJsonStep_some_inv acc j acc' hs with ⟨heq, hflag⟩ |
        ⟨r, cv, hrole, hcv, htr, htc, heq⟩
      · subst heq
        rw [hres, List.filterMap_cons, msgOfElement_none_of_falsy j hflag]
      · subst heq
        rw [hres, List.filterMap_cons, msgOfElement_some_of_truthy j r cv hrole hcv htr htc]
        simp

/-- C6: for every input, `participants` is the sequence of the distinct
sender values of the result's messages in first-seen order (`dedupSeq` is
the insertion-ordered set), with no duplicates; on the claim's four-sender
input A, B, A, C the participants are exactly `[A, B, C]`. -/
theorem C6_participants_first_seen :
    (∀ raw : List Char,
        (parseChat raw).participants = dedupSeq ((parseChat raw).messages.map Message.sender) ∧
        ((parseChat raw).participants).Nodup) ∧
    parseChat (String.data "A: x\nB: y\nA: z\nC: w") =
      { messages := [{ date := "Unknown", time := "", sender := "A", content := "x" },
                     { date := "Unknown", time := "", sender := "B", content := "y" },
                     { date := "Unknown", time := "", sender := "A", content := "z" },
                     { date := "Unknown", time := "", sender := "C", content := "w" }],
        participants := ["A", "B", "C"] } := by
  refine ⟨?_, by decide⟩
  intro raw
  have h1 : (parseChat raw).participants =
      dedupSeq ((parseChat raw).messages.map Message.sender) := by
    unfold parseChat
    cases ht : tryJson raw with
    | none => exact parseLines_participants raw
    | some r => exact tryJson_participants raw r ht
  exact ⟨h1, by rw [h1]; exact dedupSeq_nodup _⟩

/-- C10 counterexample: the first array element HAS both a `role` field and
a `content` field (`role` is the empty string, which is falsy), yet the
structured path produces no message for it — only the second element's
message appears. -/
theorem C10_falsy_field_counterexample :
    objField (Json.obj [("role", Json.str ""), ("content", Json.str "x")]) "role" =
      some (Json.str "") ∧
    objField (Json.obj [("role", Json.str ""), ("content", Json.str "x")]) "content" =
      some (Json.str "x") ∧
    processJsonMsgs [Json.obj [("role", Json.str ""), ("content", Json.str "x")],
                     Json.obj [("role", Json.str "user"), ("content", Json.str "hi")]] =
      some ([{ date := "", time := "", sender := "User", content := "hi" }], ["User"]) ∧
    parseChat (String.data "[\x7b\"role\":\"\",\"content\":\"x\"\x7d,\x7b\"role\":\"user\",\"content\":\"hi\"\x7d]") =
      { messages := [{ date := "", time := "", sender := "User", content := "hi" }],
        participants := ["User"] } :=
  ⟨rfl, rfl, by decide, by decide⟩

/-- C10 (amended): the structured path's messages are exactly those of the
elements whose `role` is a truthy STRING and whose `content` is truthy
(`msgOfElement`); an element lacking either field is skipped without
error.  (An element whose fields are present but falsy is also skipped,
and a truthy non-string `role` aborts the whole structured path with a
caught `TypeError`.) -/
theorem C10_structured_elements :
    (∀ (es : List Json) (res : List Message × List String),
        processJsonMsgs es = some res → res.1 = es.filterMap msgOfElement) ∧
    (∀ (acc : List Message × List String) (j : Json), j ≠ Json.null →
        objField j "role" = none ∨ objField j "content" = none →
        processJsonStep acc j = some acc) := by
  constructor
  · intro es res h
    have hf := processJson_fold_filterMap es ([], []) res h
    simpa using hf
  · intro acc j hnull hmiss
    cases j with
    | null => exact absurd rfl hnull
    | bool b => simp [processJsonStep, objField, truthyOpt]
    | num lex => simp [processJsonStep, objField, truthyOpt]
    | str s => simp [processJsonStep, objField, truthyOpt]
    | arr es => simp [processJsonStep, objField, truthyOpt]
    | obj fs =>
      rcases hmiss with hm | hm <;> simp [processJsonStep, hm, truthyOpt]

/-- Witness for C10: a produced message from a truthy element, and a
skipped element lacking both fields. -/
theorem C10_structured_elements_witness :
    ([{ date := "", time := "", sender := "User", content := "hi" }] : List Message) =
      [Json.obj [("role", Json.str "user"), ("content", Json.str "hi")]].filterMap msgOfElement ∧
    processJsonStep ([], []) (Json.obj [("other", Json.str "y")]) = some ([], []) :=
  ⟨C10_structured_elements.1 [Json.obj [("role", Json.str "user"), ("content", Json.str "hi")]]
      ([{ date := "", time := "", sender := "User", content := "hi" }], ["User"]) (by decide),
   C10_structured_elements.2 ([], []) (Json.obj [("other", Json.str "y")])
      (by intro hcon; exact Json.noConfusion hcon) (Or.inl rfl)⟩

end ChadBot
